import Mathlib

/-!
Verification of the string-transformation core of `eruo-strutil`
(`src/plugins/polars/eruo-strutil/src/expressions.rs`).

The per-value string algorithms are embedded shallowly: Rust strings become
`List Char`, fallible code (code that can panic) returns `Option`, and the
thread-local random generator of `to_sponge_case` is made explicit as a
stream of boolean coin flips.  Unicode character classification and case
mapping from the Rust standard library are modelled exactly on the character
set the theorems touch: all of ASCII, the full Unicode `White_Space` table,
and the letter 'ß' (whose uppercase mapping is the two-character string
"SS").  Theorems that quantify over all inputs restrict them to ASCII, where
the model agrees with the Rust standard library character for character.
-/

/-- Models Rust `char::is_ascii_lowercase`: `'a'..='z'`. -/
def isAsciiLower (c : Char) : Bool := 97 ≤ c.toNat && c.toNat ≤ 122

/-- Models Rust `char::is_ascii_uppercase`: `'A'..='Z'`. -/
def isAsciiUpper (c : Char) : Bool := 65 ≤ c.toNat && c.toNat ≤ 90

/-- Models Rust `char::to_ascii_lowercase`. -/
def asciiToLower (c : Char) : Char :=
  if isAsciiUpper c then Char.ofNat (c.toNat + 32) else c

/-- Models Rust `char::to_ascii_uppercase`. -/
def asciiToUpper (c : Char) : Char :=
  if isAsciiLower c then Char.ofNat (c.toNat - 32) else c

/-- Models `is_vowel` from the source: ASCII-case-insensitive test against
`a`, `e`, `i`, `o`, `u`. -/
def is_vowel (c : Char) : Bool :=
  let d := asciiToLower c
  d = 'a' || d = 'e' || d = 'i' || d = 'o' || d = 'u'

/-- Models Rust `char::is_ascii_punctuation`:
`'!'..='/' | ':'..='@' | '['..='`' | '{'..='~'`. -/
def rustIsAsciiPunct (c : Char) : Bool :=
  (33 ≤ c.toNat && c.toNat ≤ 47) || (58 ≤ c.toNat && c.toNat ≤ 64) ||
  (91 ≤ c.toNat && c.toNat ≤ 96) || (123 ≤ c.toNat && c.toNat ≤ 126)

/-- Models Rust `char::is_whitespace`: the full Unicode `White_Space`
property (a finite table, reproduced exactly). -/
def rustIsWhitespace (c : Char) : Bool :=
  c.toNat ∈ [0x09, 0x0A, 0x0B, 0x0C, 0x0D, 0x20, 0x85, 0xA0, 0x1680,
    0x2000, 0x2001, 0x2002, 0x2003, 0x2004, 0x2005, 0x2006, 0x2007,
    0x2008, 0x2009, 0x200A, 0x2028, 0x2029, 0x202F, 0x205F, 0x3000]

/-- Models Rust `char::is_alphabetic`.  Exact on ASCII and on 'ß'; other
non-ASCII characters are modelled as non-letters (no theorem below applies
a classifier to any character outside this modelled set). -/
def rustIsAlphabetic (c : Char) : Bool :=
  if c.toNat < 128 then isAsciiUpper c || isAsciiLower c else c = 'ß'

/-- Models Rust `char::is_uppercase`.  Exact on ASCII and on 'ß'. -/
def rustIsUppercase (c : Char) : Bool :=
  if c.toNat < 128 then isAsciiUpper c else false

/-- Models Rust `char::is_lowercase`.  Exact on ASCII and on 'ß'. -/
def rustIsLowercase (c : Char) : Bool :=
  if c.toNat < 128 then isAsciiLower c else c = 'ß'

/-- Models Rust `char::to_uppercase` (which yields a string of characters).
Exact on ASCII and on 'ß', whose Unicode uppercase mapping is "SS"; other
non-ASCII characters are modelled as fixed points. -/
def rustToUppercase (c : Char) : List Char :=
  if c.toNat < 128 then [asciiToUpper c] else if c = 'ß' then ['S', 'S'] else [c]

/-- Models Rust `char::to_lowercase`.  Exact on ASCII and on 'ß'. -/
def rustToLowercase (c : Char) : List Char :=
  if c.toNat < 128 then [asciiToLower c] else [c]

/-- Transfer principle: a decidable per-character property checked on all
128 ASCII code points holds for every character with code point below 128. -/
theorem ascii_fact (P : Char → Prop) [DecidablePred P]
    (hP : ∀ i : Fin 128, P (Char.ofNat i.val))
    (c : Char) (h : c.toNat < 128) : P c := by
  have := hP ⟨c.toNat, h⟩
  rwa [Char.ofNat_toNat] at this

/-! ## Pig Latin (`pig_latin_word`, `pig_latinnify`) -/

/-- Byte length of a string, as Rust `str::len` computes it (sum of the
UTF-8 sizes of its characters). -/
def utf8Len (l : List Char) : Nat := l.foldr (fun c acc => c.utf8Size + acc) 0

/-- Models the consonant-cluster scan of `pig_latin_word`: iterate over the
characters with their character index `i`, returning `i` at the first ASCII
vowel; whenever `i` equals the byte length minus one, record the byte length
as the tentative answer (this is the source's `i == word_content.len() - 1`
comparison of a character index against a byte length). -/
def clusterScan (byteLen : Nat) : Nat → Nat → List Char → Nat
  | _, acc, [] => acc
  | i, acc, c :: cs =>
    if is_vowel c then i
    else clusterScan byteLen (i + 1) (if i = byteLen - 1 then byteLen else acc) cs

/-- Models Rust `str::split_at` at byte index `n`: `none` when `n` is not a
character boundary (where the Rust code panics). -/
def splitAtBytes (n : Nat) : List Char → Option (List Char × List Char)
  | [] => if n = 0 then some ([], []) else none
  | c :: cs =>
    if n = 0 then some ([], c :: cs)
    else if c.utf8Size ≤ n then
      (splitAtBytes (n - c.utf8Size) cs).map (fun p => (c :: p.1, p.2))
    else none

/-- Models `pig_latin_word` from the source.  `none` marks a panic of the
Rust code: the `unwrap` of the first character when the content left after
detaching trailing punctuation is empty, a `split_at` that falls inside a
multi-byte character, or a `replace_range(..1, _)` whose first character
occupies more than one byte. -/
def pig_latin_word (word : List Char) : Option (List Char) :=
  if word.isEmpty then some [] else
  let lastC := word.getLastD ' '
  let content := if rustIsAsciiPunct lastC then word.dropLast else word
  let punc : List Char := if rustIsAsciiPunct lastC then [lastC] else []
  match content with
  | [] => none
  | first :: _ =>
    let clusterEnd := if is_vowel first then 0
      else clusterScan (utf8Len content) 0 0 content
    let base : Option (List Char) :=
      if clusterEnd = 0 then some (content ++ ['w', 'a', 'y'])
      else match splitAtBytes clusterEnd content with
        | none => none
        | some (cluster, rest) =>
          let moved := rest ++ cluster ++ ['a', 'y']
          if isAsciiUpper first then
            match moved with
            | [] => none
            | b :: bs =>
              if b.utf8Size = 1 then some (asciiToUpper b :: bs) else none
          else some moved
    base.map (· ++ punc)

/-- Generic splitter with Rust `str::split` semantics: `n` matched
delimiters yield `n + 1` fragments, so the empty string yields one empty
fragment. -/
def rustSplit (p : Char → Bool) : List Char → List (List Char)
  | [] => [[]]
  | c :: cs =>
    if p c then [] :: rustSplit p cs
    else match rustSplit p cs with
      | [] => [[c]]
      | t :: ts => (c :: t) :: ts

/-- Models Rust `str::split_whitespace`: split on Unicode whitespace and
discard empty fragments. -/
def splitWhitespace (l : List Char) : List (List Char) :=
  (rustSplit rustIsWhitespace l).filter (fun t => !t.isEmpty)

/-- Models the per-value closure of `pig_latinnify`: translate each
whitespace-delimited token and rejoin with single spaces.  `none` marks a
panic of `pig_latin_word` on some token. -/
def pig_latinnify (v : List Char) : Option (List Char) :=
  ((splitWhitespace v).mapM pig_latin_word).map (List.intercalate [' '])

/-! ## Delimiter splitting (`split_by_chars`) -/

/-- Models Rust `str::trim`: drop Unicode whitespace from both ends. -/
def rustTrim (l : List Char) : List Char :=
  (((l.dropWhile rustIsWhitespace).reverse).dropWhile rustIsWhitespace).reverse

/-- Models `split_by_chars`: for every non-null row, split on the characters
of `characters` and push each fragment trimmed; null rows contribute
nothing. -/
def split_by_chars (rows : List (Option (List Char))) (characters : List Char) :
    List (List Char) :=
  rows.foldr (fun r acc =>
    match r with
    | none => acc
    | some s => ((rustSplit (fun c => characters.contains c) s).map rustTrim) ++ acc) []

/-! ## Sentence case (`to_sentence_case`) -/

/-- Models the per-value loop of `to_sentence_case` with its three state
bits `capitalize_next`, `last_char_was_lowercase`,
`last_char_was_sentence_ender` (in this order). -/
def toSentenceCaseAux (cap ll le : Bool) : List Char → List Char
  | [] => []
  | c :: cs =>
    if rustIsAlphabetic c then
      (if ll && rustIsUppercase c then [' '] else [])
        ++ (if cap then rustToUppercase c else rustToLowercase c)
        ++ toSentenceCaseAux false (rustIsLowercase c) false cs
    else
      c :: (if c = '.' || c = '!' || c = '?' then toSentenceCaseAux cap false true cs
        else if rustIsWhitespace c && le then toSentenceCaseAux true false false cs
        else toSentenceCaseAux false false false cs)

/-- Models `to_sentence_case` on one value: initial state is
`capitalize_next = true`, both other bits `false`. -/
def to_sentence_case (v : List Char) : List Char := toSentenceCaseAux true false false v

/-! ## Sponge case (`to_sponge_case`) -/

/-- Models the per-value loop of `to_sponge_case`.  The thread-local random
generator is made explicit: `g k` is the outcome of the `k`-th call to
`rng.random_bool(0.5)` (true = uppercase), and `k` counts the flips drawn so
far — exactly one per alphabetic character, in left-to-right order. -/
def to_sponge_case (g : Nat → Bool) : Nat → List Char → List Char
  | _, [] => []
  | k, c :: cs =>
    if rustIsAlphabetic c then
      (if g k then rustToUppercase c else rustToLowercase c) ++ to_sponge_case g (k + 1) cs
    else c :: to_sponge_case g k cs

/-! ## Sentence case, Variant A -/

/-- Sentence-ending punctuation: `.`, `!`, `?`. -/
def isSentenceEnder (c : Char) : Bool := c = '.' || c = '!' || c = '?'

/-- Whether the first character of the remainder is whitespace. -/
def headIsWs : List Char → Bool
  | [] => false
  | d :: _ => rustIsWhitespace d

/-- Modelled from the spec: SentenceCaser Variant A ("capitalize after
terminator + whitespace run"), which is described in the specification but
absent from the source file under verification (the source contains only
the Variant B state machine).  One boolean state `capitalize_next`
(initially true); an alphabetic character is emitted through the uppercase
mapping when the flag is set (clearing it) and copied through unchanged
otherwise; a non-alphabetic character is copied unchanged and sets the flag
when it is a sentence ender immediately followed by whitespace, leaving the
flag unaffected otherwise (whitespace inside the run is non-alphabetic, so
the flag survives the run until the next alphabetic character, as the spec
prescribes).  The machine is parameterized by the alphabetic classifier
`isA` and the uppercase mapping `up` — the spec takes both from the full
Unicode properties, where `up` can expand a character (the uppercase of 'ß'
is "SS") — so every theorem below holds for the true Unicode classifier and
case mapping; no finite modelling of the Unicode tables is load-bearing.
The whitespace and terminator tests are exact on all of Unicode. -/
def sentenceCaseA (isA : Char → Bool) (up : Char → List Char) :
    Bool → List Char → List Char
  | _, [] => []
  | capNext, c :: cs =>
    if isA c then
      (if capNext then up c else [c]) ++ sentenceCaseA isA up false cs
    else
      c :: sentenceCaseA isA up (capNext || (isSentenceEnder c && headIsWs cs)) cs

/-- Whether a string contains no character the classifier `isA` accepts. -/
def noAlpha (isA : Char → Bool) (l : List Char) : Bool := l.all (fun c => !isA c)

/-- Declarative reading of the trigger in Claim C5: among the first `i`
characters of `s` there is a sentence terminator (taken as a non-alphabetic
character) immediately followed by whitespace, with no alphabetic character
strictly between the terminator and position `i`.  Requiring the terminator
itself to be non-alphabetic is vacuous for the real Unicode classifier,
since `.`, `!` and `?` are not letters. -/
def enderSetsFlag (isA : Char → Bool) : List Char → Nat → Bool
  | _, 0 => false
  | [], _ + 1 => false
  | d :: rest, i + 1 =>
    (isSentenceEnder d && !isA d && headIsWs rest && noAlpha isA (rest.take i))
      || enderSetsFlag isA rest i

/-- Position-based restatement of Claim C5, generalized over the initial
`capitalize_next` flag `b`: position `i` of `s` is a capitalization point
iff its character is alphabetic and it is either the first alphabetic
character of the string (with the flag initially set), or the first
alphabetic character after a sentence terminator immediately followed by
whitespace. -/
def capPointFrom (isA : Char → Bool) (b : Bool) (s : List Char) (i : Nat) : Bool :=
  isA (s.getD i '?') &&
    ((b && noAlpha isA (s.take i)) || enderSetsFlag isA s i)

/-- Declarative output demanded by Claim C5: every position of the input is
emitted verbatim, except that a capitalization point — and nothing else —
is emitted through the uppercase mapping. -/
def capOutput (isA : Char → Bool) (up : Char → List Char) (b : Bool)
    (s : List Char) : List Char :=
  ((List.range s.length).map (fun i =>
    if capPointFrom isA b s i then up (s.getD i '?') else [s.getD i '?'])).flatten

/-! ## ASCII character facts -/

theorem asciiToLower_toNat_lt (c : Char) (h : c.toNat < 128) :
    (asciiToLower c).toNat < 128 :=
  ascii_fact (fun c => (asciiToLower c).toNat < 128) (by decide) c h

theorem asciiToUpper_toNat_lt (c : Char) (h : c.toNat < 128) :
    (asciiToUpper c).toNat < 128 :=
  ascii_fact (fun c => (asciiToUpper c).toNat < 128) (by decide) c h

theorem asciiToLower_idem (c : Char) (h : c.toNat < 128) :
    asciiToLower (asciiToLower c) = asciiToLower c :=
  ascii_fact (fun c => asciiToLower (asciiToLower c) = asciiToLower c) (by decide) c h

theorem asciiToUpper_idem (c : Char) (h : c.toNat < 128) :
    asciiToUpper (asciiToUpper c) = asciiToUpper c :=
  ascii_fact (fun c => asciiToUpper (asciiToUpper c) = asciiToUpper c) (by decide) c h

theorem rustIsUppercase_asciiToLower (c : Char) (h : c.toNat < 128) :
    rustIsUppercase (asciiToLower c) = false :=
  ascii_fact (fun c => rustIsUppercase (asciiToLower c) = false) (by decide) c h

theorem rustIsAlphabetic_asciiToLower (c : Char) (h : c.toNat < 128) :
    rustIsAlphabetic c = true → rustIsAlphabetic (asciiToLower c) = true :=
  ascii_fact
    (fun c => rustIsAlphabetic c = true → rustIsAlphabetic (asciiToLower c) = true)
    (by decide) c h

theorem rustIsAlphabetic_asciiToUpper (c : Char) (h : c.toNat < 128) :
    rustIsAlphabetic c = true → rustIsAlphabetic (asciiToUpper c) = true :=
  ascii_fact
    (fun c => rustIsAlphabetic c = true → rustIsAlphabetic (asciiToUpper c) = true)
    (by decide) c h

theorem rustToUppercase_ascii (c : Char) (h : c.toNat < 128) :
    rustToUppercase c = [asciiToUpper c] := by
  simp [rustToUppercase, h]

theorem rustToLowercase_ascii (c : Char) (h : c.toNat < 128) :
    rustToLowercase c = [asciiToLower c] := by
  simp [rustToLowercase, h]

/-! ## Small structural lemmas -/

/-- A split whose predicate matches no character yields the whole string as
the single fragment. -/
theorem rustSplit_of_false (p : Char → Bool) (hp : ∀ c, p c = false) :
    ∀ s : List Char, rustSplit p s = [s]
  | [] => rfl
  | c :: cs => by
    simp [rustSplit, hp c, rustSplit_of_false p hp cs]

/-! ## Claim theorems -/

/-- Claim C1 (code_bug): the specification requires that a word of pure
punctuation — whose content becomes empty after the trailing punctuation
character is detached — is returned unchanged without panicking, but the
code unwraps the first character of the empty remainder and panics: on the
word "!" the model reaches the panic marker `none` instead of `some "!"`. -/
theorem pig_latin_word_pure_punct : pig_latin_word "!".data = none := by decide

/-- Claim C2 (code_bug): for a word whose first character is a non-ASCII
letter the specification promises consonant-cluster behaviour (the leading
non-vowel run moved to the end with "ay") and totality, but the code
compares a character index against a byte length and splits at a byte
index: on "é" it takes the vowel-start branch and returns "éway", and on
"éa" the `split_at` falls inside the two-byte character and panics. -/
theorem pig_latin_word_nonascii_first :
    pig_latin_word "é".data = some "éway".data ∧ pig_latin_word "éa".data = none := by
  constructor <;> decide

/-- Claim C3 (counterexample): `translate("Pig")` is not `"Igpay"` — the
code uppercases the new first character but never lowercases the moved
cluster, producing `"IgPay"`. -/
theorem pig_latin_word_Pig_ce : pig_latin_word "Pig".data ≠ some "Igpay".data := by
  decide

/-- Claim C3 (amended): the Pig Latin word translation satisfies
`"" ↦ ""`, `"eat" ↦ "eatway"`, `"pig" ↦ "igpay"`, `"Pig" ↦ "IgPay"` (the
moved consonant keeps its original uppercase), `"latin!" ↦ "atinlay!"`, and
`"xyz" ↦ "xyzay"`. -/
theorem pig_latin_word_examples :
    pig_latin_word "".data = some "".data ∧
    pig_latin_word "eat".data = some "eatway".data ∧
    pig_latin_word "pig".data = some "igpay".data ∧
    pig_latin_word "Pig".data = some "IgPay".data ∧
    pig_latin_word "latin!".data = some "atinlay!".data ∧
    pig_latin_word "xyz".data = some "xyzay".data := by
  refine ⟨by decide, by decide, by decide, by decide, by decide, by decide⟩

/-- Claim C4 (counterexample): the sentence-case transform does not map
`"helloWorld"` to `"Hello World"` — the letter after the inserted camel
boundary space is written with `capitalize_next` cleared, hence lowercase. -/
theorem to_sentence_case_camel_ce :
    to_sentence_case "helloWorld".data ≠ "Hello World".data := by decide

/-- Claim C4 (amended): the sentence-case transform maps
`"HELLO world.the END"` to `"Hello world.the end"` (no capitalization after
a terminator that is not followed by whitespace) and `"helloWorld"` to
`"Hello world"` (a space is inserted at the lowercase-to-uppercase camel
boundary and the boundary letter is written lowercase, since
`capitalize_next` is false there). -/
theorem to_sentence_case_examples :
    to_sentence_case "HELLO world.the END".data = "Hello world.the end".data ∧
    to_sentence_case "helloWorld".data = "Hello world".data := by
  constructor <;> decide

/-- Claim C6 (supporting theorem): with the random generator modelled as an
explicit stream of flips, the sponge transform consumes exactly one flip
per alphabetic character, in left-to-right order, and its output is a
function of the input and the flip sequence alone. -/
theorem to_sponge_case_flips_in_order (b0 b1 b2 : Bool) :
    to_sponge_case (fun k => if k = 0 then b0 else if k = 1 then b1 else b2) 0
      "ab!c".data
      = [cond b0 'A' 'a', cond b1 'B' 'b', '!', cond b2 'C' 'c'] := by
  cases b0 <;> cases b1 <;> cases b2 <;> decide

/-- Claim C7 (counterexample): a non-null empty-string row does not yield
zero fragments from `split_by_chars` — Rust `str::split` yields one empty
fragment for the empty string, so one empty output row is emitted. -/
theorem split_by_chars_empty_row_ce :
    split_by_chars [some "".data] ",".data ≠ [] := by decide

/-- Claim C7 (amended): on a non-null empty-string input, pig-latin,
sentence-case and sponge-case return the empty string, while
`split_by_chars` emits exactly one fragment, the empty string, for any
delimiter set. -/
theorem empty_input_behavior :
    pig_latinnify "".data = some "".data ∧
    to_sentence_case "".data = "".data ∧
    (∀ (g : Nat → Bool) (k : Nat), to_sponge_case g k "".data = "".data) ∧
    (∀ characters : List Char, split_by_chars [some "".data] characters = [[]]) := by
  refine ⟨rfl, rfl, fun g k => rfl, fun characters => rfl⟩

/-- Claim C8 (counterexample): sponge-case output length can differ from
the input length — the Unicode uppercase mapping of 'ß' is the two-character
string "SS", so an uppercase flip on "ß" yields a two-character output. -/
theorem to_sponge_case_length_ce :
    (to_sponge_case (fun _ => true) 0 "ß".data).length ≠ ("ß".data).length := by
  decide

/-- Claim C9 (counterexample): the sentence-case transform is not
idempotent on every string — `to_sentence_case "ß" = "SS"` (the flagged
first letter is uppercased to the two-character mapping of 'ß'), and a
second application turns `"SS"` into `"Ss"`. -/
theorem to_sentence_case_idem_ce :
    to_sentence_case (to_sentence_case "ß".data) ≠ to_sentence_case "ß".data := by
  decide

/-- Claim C10 (confirmed): with an empty delimiter set, `split_by_chars`
performs no splitting: it emits exactly one fragment per non-null row,
namely that row trimmed of leading and trailing whitespace. -/
theorem split_by_chars_no_delims (rows : List (Option (List Char))) :
    split_by_chars rows [] = (rows.filterMap id).map rustTrim := by
  induction rows with
  | nil => rfl
  | cons r rs ih =>
    cases r with
    | none => simpa [split_by_chars] using ih
    | some s =>
      have hsplit : rustSplit (fun c => ([] : List Char).contains c) s = [s] :=
        rustSplit_of_false _ (fun c => by simp) s
      have step : split_by_chars (some s :: rs) [] =
          ((rustSplit (fun c => ([] : List Char).contains c) s).map rustTrim)
            ++ split_by_chars rs [] := rfl
      rw [step, hsplit, ih]
      simp [List.filterMap_cons]

/-- Facts about the space character used when re-processing an inserted
camel-boundary space. -/
theorem space_char_facts :
    rustIsAlphabetic ' ' = false ∧ (' ' = '.' || ' ' = '!' || ' ' = '?') = false := by
  decide

/-- Boolean identity used to merge the head contribution of a cons cell
into the initial flag of the capitalization-point predicate. -/
theorem bool_flag_merge :
    ∀ x b e a t : Bool, (x && ((b && a) || ((e && a) || t))) = (x && (((b || e) && a) || t)) := by
  decide

/-- Shifting the capitalization-point predicate across the head of the
string updates the initial flag exactly as the Variant A machine does:
cleared by an alphabetic head, otherwise possibly set by a terminator
immediately followed by whitespace. -/
theorem capPointFrom_cons (isA : Char → Bool) (b : Bool) (c : Char)
    (cs : List Char) (i : Nat) :
    capPointFrom isA b (c :: cs) (i + 1)
      = capPointFrom isA
          (if isA c then false else b || (isSentenceEnder c && headIsWs cs)) cs i := by
  cases hc : isA c with
  | true =>
    simp only [capPointFrom, List.getD_cons_succ, List.take_succ_cons, noAlpha,
      List.all_cons, enderSetsFlag, hc, if_pos, Bool.not_true, Bool.false_and,
      Bool.and_false, Bool.false_or, if_true]
  | false =>
    simp only [capPointFrom, List.getD_cons_succ, List.take_succ_cons, noAlpha,
      List.all_cons, enderSetsFlag, hc, Bool.not_false, Bool.true_and,
      Bool.and_true, if_false, Bool.false_eq_true, ite_false]
    exact bool_flag_merge _ _ _ _ _

/-- At position zero the capitalization-point predicate reduces to the
head being alphabetic while the flag is set. -/
theorem capPointFrom_zero (isA : Char → Bool) (b : Bool) (c : Char) (cs : List Char) :
    capPointFrom isA b (c :: cs) 0 = (isA c && b) := by
  simp [capPointFrom, enderSetsFlag, noAlpha]

/-- The Variant A machine computes exactly the declarative per-position
map: from any initial flag, its output is the input with precisely the
capitalization points emitted through the uppercase mapping and every
other position emitted verbatim — for every alphabetic classifier and
every (possibly expanding) uppercase mapping. -/
theorem sentenceCaseA_eq_capOutput (isA : Char → Bool) (up : Char → List Char) :
    ∀ (s : List Char) (b : Bool), sentenceCaseA isA up b s = capOutput isA up b s := by
  intro s
  induction s with
  | nil => intro b; rfl
  | cons c cs ih =>
    intro b
    have hout : capOutput isA up b (c :: cs)
        = (if isA c && b then up c else [c])
          ++ capOutput isA up
              (if isA c then false else b || (isSentenceEnder c && headIsWs cs)) cs := by
      unfold capOutput
      rw [List.length_cons, List.range_succ_eq_map, List.map_cons, List.flatten_cons,
        List.map_map]
      rw [capPointFrom_zero, List.getD_cons_zero]
      congr 1
      congr 1
      refine List.map_congr_left (fun i _ => ?_)
      simp only [Function.comp_apply, Nat.succ_eq_add_one, capPointFrom_cons,
        List.getD_cons_succ]
    rw [hout]
    cases hc : isA c with
    | true =>
      have e1 : sentenceCaseA isA up b (c :: cs)
          = (if b then up c else [c]) ++ sentenceCaseA isA up false cs := by
        simp [sentenceCaseA, hc]
      rw [e1, ih false]
      simp
    | false =>
      have e1 : sentenceCaseA isA up b (c :: cs)
          = c :: sentenceCaseA isA up (b || (isSentenceEnder c && headIsWs cs)) cs := by
        simp [sentenceCaseA, hc]
      rw [e1, ih]
      simp

/-- Claim C5 (confirmed, modelled from the spec): the headline example
holds, and for every alphabetic classifier and every uppercase mapping —
in particular the true full-Unicode ones the spec prescribes — and for
every input string, the Variant A output equals the declarative map that
emits every character verbatim except that exactly the capitalization
points (the first alphabetic character of the string, and the first
alphabetic character after a sentence terminator immediately followed by
whitespace) are emitted uppercased; hence a non-flagged character, and in
particular every alphabetic character not flagged by `capitalize_next`, is
copied with its original case unchanged. -/
theorem sentenceCaseA_spec :
    sentenceCaseA rustIsAlphabetic rustToUppercase true "hello world. the end".data
        = "Hello world. The end".data ∧
    ∀ (isA : Char → Bool) (up : Char → List Char) (s : List Char),
      sentenceCaseA isA up true s = capOutput isA up true s :=
  ⟨by decide, fun isA up s => sentenceCaseA_eq_capOutput isA up s true⟩

/-- Claim C8 (amended): for ASCII inputs — where every character's case
mapping is a single character — the sponge transform preserves the length
and leaves every non-alphabetic character unchanged at its position, for
every flip stream and flip counter. -/
theorem to_sponge_case_ascii_shape :
    ∀ (s : List Char), (∀ c ∈ s, c.toNat < 128) →
    ∀ (g : Nat → Bool) (k i : Nat),
      (to_sponge_case g k s).length = s.length ∧
      (rustIsAlphabetic (s.getD i '?') = false →
        (to_sponge_case g k s).getD i '?' = s.getD i '?') := by
  intro s
  induction s with
  | nil => exact fun _ g k i => ⟨rfl, fun _ => rfl⟩
  | cons c cs ih =>
    intro h g k i
    have hc : c.toNat < 128 := h c (List.mem_cons_self c cs)
    have hcs : ∀ d ∈ cs, d.toNat < 128 := fun d hd => h d (List.mem_cons_of_mem c hd)
    by_cases ha : rustIsAlphabetic c = true
    · have hrw : to_sponge_case g k (c :: cs)
          = (if g k then [asciiToUpper c] else [asciiToLower c])
            ++ to_sponge_case g (k + 1) cs := by
        simp [to_sponge_case, ha, rustToUppercase_ascii c hc, rustToLowercase_ascii c hc]
      refine ⟨by rw [hrw]; cases g k <;>
        simp [(ih hcs g (k + 1) 0).1], ?_⟩
      intro hna
      cases i with
      | zero => rw [List.getD_cons_zero] at hna; exact absurd ha (by simp [hna])
      | succ i =>
        rw [List.getD_cons_succ] at hna ⊢
        rw [hrw]
        cases g k
        · simpa using (ih hcs g (k + 1) i).2 hna
        · simpa using (ih hcs g (k + 1) i).2 hna
    · have ha' : rustIsAlphabetic c = false := by simpa using ha
      have hrw : to_sponge_case g k (c :: cs) = c :: to_sponge_case g k cs := by
        simp [to_sponge_case, ha']
      refine ⟨by simp [hrw, (ih hcs g k 0).1], ?_⟩
      intro hna
      cases i with
      | zero => simp [hrw]
      | succ i =>
        rw [List.getD_cons_succ] at hna ⊢
        rw [hrw, List.getD_cons_succ]
        exact (ih hcs g k i).2 hna

/-- Witness for the amended Claim C8 at the input "a!", the all-tails flip
stream and position 1 (the punctuation character). -/
theorem to_sponge_case_ascii_shape_witness :
    (∀ c ∈ "a!".data, c.toNat < 128) ∧
    ((to_sponge_case (fun _ => false) 0 "a!".data).length = ("a!".data).length ∧
      (rustIsAlphabetic (("a!".data).getD 1 '?') = false →
        (to_sponge_case (fun _ => false) 0 "a!".data).getD 1 '?'
          = ("a!".data).getD 1 '?')) :=
  ⟨by decide, to_sponge_case_ascii_shape "a!".data (by decide) (fun _ => false) 0 1⟩

/-- The state machine of `to_sentence_case` is idempotent on ASCII input
when restarted from a compatible state: the first-pass state `(cap, ll, le)`
satisfies the reachability invariant that the lowercase flag is only set
while both other flags are clear, and the second pass starts with the same
`cap` and `le` and any lowercase flag that is clear whenever `cap` is set. -/
theorem toSentenceCaseAux_idem :
    ∀ (cs : List Char), (∀ c ∈ cs, c.toNat < 128) →
    ∀ (cap ll le ll2 : Bool),
      (ll = true → cap = false ∧ le = false) →
      (cap = true → ll2 = false) →
      toSentenceCaseAux cap ll2 le (toSentenceCaseAux cap ll le cs)
        = toSentenceCaseAux cap ll le cs := by
  intro cs
  induction cs with
  | nil => intro _ cap ll le ll2 _ _; rfl
  | cons c cs ih =>
    intro h cap ll le ll2 h1 h2
    have hc : c.toNat < 128 := h c (List.mem_cons_self c cs)
    have hcs : ∀ d ∈ cs, d.toNat < 128 := fun d hd => h d (List.mem_cons_of_mem c hd)
    by_cases ha : rustIsAlphabetic c = true
    · by_cases hsp : (ll && rustIsUppercase c) = true
      · -- a camel-boundary space is inserted, so ll is set and cap, le clear
        have hsp2 : ll = true ∧ rustIsUppercase c = true := by simpa using hsp
        have hll : ll = true := hsp2.1
        have hcap : cap = false := (h1 hll).1
        have hle : le = false := (h1 hll).2
        subst hcap; subst hle
        have e1 : toSentenceCaseAux false ll false (c :: cs)
            = ' ' :: asciiToLower c
              :: toSentenceCaseAux false (rustIsLowercase c) false cs := by
          simp [toSentenceCaseAux, ha, hsp, rustToLowercase_ascii c hc]
        have e2 : ∀ rest : List Char,
            toSentenceCaseAux false ll2 false (' ' :: asciiToLower c :: rest)
              = ' ' :: asciiToLower c
                :: toSentenceCaseAux false (rustIsLowercase (asciiToLower c)) false rest := by
          intro rest
          simp [toSentenceCaseAux, space_char_facts.1, space_char_facts.2,
            rustIsAlphabetic_asciiToLower c hc ha,
            rustToLowercase_ascii _ (asciiToLower_toNat_lt c hc),
            asciiToLower_idem c hc]
        have e3 : toSentenceCaseAux false (rustIsLowercase (asciiToLower c)) false
              (toSentenceCaseAux false (rustIsLowercase c) false cs)
            = toSentenceCaseAux false (rustIsLowercase c) false cs :=
          ih hcs false (rustIsLowercase c) false (rustIsLowercase (asciiToLower c))
            (fun _ => ⟨rfl, rfl⟩) (fun hx => absurd hx Bool.false_ne_true)
        rw [e1, e2, e3]
      · have hsp' : (ll && rustIsUppercase c) = false := by simpa using hsp
        cases cap with
        | false =>
          have e1 : toSentenceCaseAux false ll le (c :: cs)
              = asciiToLower c
                :: toSentenceCaseAux false (rustIsLowercase c) false cs := by
            simp [toSentenceCaseAux, ha, hsp', rustToLowercase_ascii c hc]
          have e2 : ∀ rest : List Char,
              toSentenceCaseAux false ll2 le (asciiToLower c :: rest)
                = asciiToLower c
                  :: toSentenceCaseAux false (rustIsLowercase (asciiToLower c)) false rest := by
            intro rest
            simp [toSentenceCaseAux, rustIsAlphabetic_asciiToLower c hc ha,
              rustIsUppercase_asciiToLower c hc,
              rustToLowercase_ascii _ (asciiToLower_toNat_lt c hc),
              asciiToLower_idem c hc]
          have e3 : toSentenceCaseAux false (rustIsLowercase (asciiToLower c)) false
                (toSentenceCaseAux false (rustIsLowercase c) false cs)
              = toSentenceCaseAux false (rustIsLowercase c) false cs :=
            ih hcs false (rustIsLowercase c) false (rustIsLowercase (asciiToLower c))
              (fun _ => ⟨rfl, rfl⟩) (fun hx => absurd hx Bool.false_ne_true)
          rw [e1, e2, e3]
        | true =>
          have hll2 : ll2 = false := h2 rfl
          subst hll2
          have e1 : toSentenceCaseAux true ll le (c :: cs)
              = asciiToUpper c
                :: toSentenceCaseAux false (rustIsLowercase c) false cs := by
            simp [toSentenceCaseAux, ha, hsp', rustToUppercase_ascii c hc]
          have e2 : ∀ rest : List Char,
              toSentenceCaseAux true false le (asciiToUpper c :: rest)
                = asciiToUpper c
                  :: toSentenceCaseAux false (rustIsLowercase (asciiToUpper c)) false rest := by
            intro rest
            simp [toSentenceCaseAux, rustIsAlphabetic_asciiToUpper c hc ha,
              rustToUppercase_ascii _ (asciiToUpper_toNat_lt c hc),
              asciiToUpper_idem c hc]
          have e3 : toSentenceCaseAux false (rustIsLowercase (asciiToUpper c)) false
                (toSentenceCaseAux false (rustIsLowercase c) false cs)
              = toSentenceCaseAux false (rustIsLowercase c) false cs :=
            ih hcs false (rustIsLowercase c) false (rustIsLowercase (asciiToUpper c))
              (fun _ => ⟨rfl, rfl⟩) (fun hx => absurd hx Bool.false_ne_true)
          rw [e1, e2, e3]
    · have ha' : rustIsAlphabetic c = false := by simpa using ha
      by_cases hend : (c = '.' || c = '!' || c = '?') = true
      · have e1 : toSentenceCaseAux cap ll le (c :: cs)
            = c :: toSentenceCaseAux cap false true cs := by
          simp [toSentenceCaseAux, ha', hend]
        have e2 : ∀ rest : List Char,
            toSentenceCaseAux cap ll2 le (c :: rest)
              = c :: toSentenceCaseAux cap false true rest := by
          intro rest
          simp [toSentenceCaseAux, ha', hend]
        have e3 : toSentenceCaseAux cap false true
              (toSentenceCaseAux cap false true cs)
            = toSentenceCaseAux cap false true cs :=
          ih hcs cap false true false
            (fun hx => absurd hx Bool.false_ne_true) (fun _ => rfl)
        rw [e1, e2, e3]
      · have hend' : (c = '.' || c = '!' || c = '?') = false := by simpa using hend
        by_cases hws : (rustIsWhitespace c && le) = true
        · have e1 : toSentenceCaseAux cap ll le (c :: cs)
              = c :: toSentenceCaseAux true false false cs := by
            simp [toSentenceCaseAux, ha', hend', hws]
          have e2 : ∀ rest : List Char,
              toSentenceCaseAux cap ll2 le (c :: rest)
                = c :: toSentenceCaseAux true false false rest := by
            intro rest
            simp [toSentenceCaseAux, ha', hend', hws]
          have e3 : toSentenceCaseAux true false false
                (toSentenceCaseAux true false false cs)
              = toSentenceCaseAux true false false cs :=
            ih hcs true false false false
              (fun hx => absurd hx Bool.false_ne_true) (fun _ => rfl)
          rw [e1, e2, e3]
        · have hws' : (rustIsWhitespace c && le) = false := by simpa using hws
          have e1 : toSentenceCaseAux cap ll le (c :: cs)
              = c :: toSentenceCaseAux false false false cs := by
            simp [toSentenceCaseAux, ha', hend', hws']
          have e2 : ∀ rest : List Char,
              toSentenceCaseAux cap ll2 le (c :: rest)
                = c :: toSentenceCaseAux false false false rest := by
            intro rest
            simp [toSentenceCaseAux, ha', hend', hws']
          have e3 : toSentenceCaseAux false false false
                (toSentenceCaseAux false false false cs)
              = toSentenceCaseAux false false false cs :=
            ih hcs false false false false
              (fun hx => absurd hx Bool.false_ne_true)
              (fun hx => absurd hx Bool.false_ne_true)
          rw [e1, e2, e3]

/-- Claim C9 (amended): the sentence-case transform is idempotent on ASCII
strings — for every input whose characters are all ASCII, applying
`to_sentence_case` to its own output returns that output unchanged. -/
theorem to_sentence_case_idem_ascii (s : List Char) (h : ∀ c ∈ s, c.toNat < 128) :
    to_sentence_case (to_sentence_case s) = to_sentence_case s :=
  toSentenceCaseAux_idem s h true false false false
    (fun hx => absurd hx Bool.false_ne_true) (fun _ => rfl)

/-- Witness for the amended Claim C9 at the concrete ASCII input
"ab. cd". -/
theorem to_sentence_case_idem_ascii_witness :
    (∀ c ∈ "ab. cd".data, c.toNat < 128) ∧
    to_sentence_case (to_sentence_case "ab. cd".data) = to_sentence_case "ab. cd".data :=
  ⟨by decide, to_sentence_case_idem_ascii "ab. cd".data (by decide)⟩
